import Mathlib

/-!
Shallow embedding of the leave-accounting core of the holiday-tracker
repository.

Calendar dates are modelled as natural numbers counting days since the Unix
epoch 1970-01-01; the ISO `YYYY-MM-DD` strings used by the code compare in
the same order, and `new Date(iso).getDay()` equals `(epochDay + 4) % 7`
(1970-01-01 was a Thursday, JS day 4). User and request ids are naturals.

Sources embedded:
- `createHolidayRequest`, `updateRequestStatus`, `cancelHolidayRequest`,
  `isUserAdmin`, `checkForConflicts`, `calculatePtoBalance` (with its inner
  `calculateWeekdays`) from the server-actions module;
- `storeHolidays` / `convertNagerToDbFormat` from `src/lib/holiday-service.ts`.
-/

namespace HolidayTracker

/-- Request status column: `pending | approved | rejected`. -/
inductive Status where
  | pending
  | approved
  | rejected
deriving DecidableEq, Repr

/-- Leave type column: `annual | sick | personal | maternity | paternity | other | public`. -/
inductive LeaveType where
  | annual
  | sick
  | personal
  | maternity
  | paternity
  | publicLeave
  | other
deriving DecidableEq, Repr

/-- User role column: `admin | member`. -/
inductive Role where
  | admin
  | member
deriving DecidableEq, Repr

/-- Row of the `users` table, restricted to the columns the core reads. -/
structure User where
  id : Nat
  role : Role
  country : Option String
deriving DecidableEq, Repr

/-- Row of the `holidayRequests` table (columns used by the core;
`updatedAt` is a day number like the dates). -/
structure HolidayRequest where
  id : Nat
  userId : Nat
  startDate : Nat
  endDate : Nat
  leaveType : LeaveType
  status : Status
  approvedBy : Option Nat
  updatedAt : Nat
deriving DecidableEq, Repr

/-- Structured failure results returned by the server actions
(`{ success: false, error: ... }` messages). -/
inductive ActionError where
  /-- Thrown by `requireAuth` when no session user exists. -/
  | authenticationRequired
  /-- Zod parse failure or the `['approved','rejected'].includes` guard. -/
  | invalidInput
  /-- The message `Admin access required`. -/
  | adminRequired
  /-- The messages `Holiday request not found` / `Request not found`. -/
  | requestNotFound
  /-- The message `You can only cancel your own holiday requests`. -/
  | notOwnerForbidden
  /-- The message `Cannot cancel an already rejected request`. -/
  | alreadyRejected
  /-- The message `Cannot cancel a request that has already started`. -/
  | alreadyStarted
deriving DecidableEq, Repr

/-- Database state shared by the lifecycle operations. `nextId` models the
id generation done by the store on insert. -/
structure DB where
  users : List User
  requests : List HolidayRequest
  nextId : Nat
deriving DecidableEq, Repr

/-- Embeds `db.query.users.findFirst({ where: eq(users.id, userId) })`. -/
def findUser (us : List User) (userId : Nat) : Option User :=
  us.find? (fun u => u.id == userId)

/-- Embeds `isUserAdmin`: looks the user up and tests `user?.role === 'admin'`. -/
def isUserAdmin (us : List User) (userId : Nat) : Bool :=
  match findUser us userId with
  | some u => u.role == Role.admin
  | none => false

/-- Embeds `db.query.holidayRequests.findFirst({ where: eq(holidayRequests.id, id) })`. -/
def findRequest (rs : List HolidayRequest) (requestId : Nat) : Option HolidayRequest :=
  rs.find? (fun r => r.id == requestId)

/-- Embeds `checkForConflicts(startDate, endDate)`: all rows with
`status = 'approved'`, `startDate <= endDate_proposed` and
`endDate >= startDate_proposed`. The query has no user filter. -/
def checkForConflicts (rs : List HolidayRequest) (startDate endDate : Nat) :
    List HolidayRequest :=
  rs.filter (fun r =>
    r.status == Status.approved &&
    decide (r.startDate ≤ endDate) &&
    decide (r.endDate ≥ startDate))

/-- Input accepted by `createHolidayRequest` after the zod schema shape
checks; the schema refinement `endDate >= startDate` is re-checked below. -/
structure RequestInput where
  startDate : Nat
  endDate : Nat
  leaveType : LeaveType
  notes : Option String
deriving DecidableEq, Repr

/-- Row inserted by a successful `createHolidayRequest` call: the `values`
object of the insert, with `status`/`approvedBy` depending on `isAdmin`. -/
def submittedRequest (db : DB) (userId : Nat) (input : RequestInput) (now : Nat) :
    HolidayRequest :=
  { id := db.nextId
    userId := userId
    startDate := input.startDate
    endDate := input.endDate
    leaveType := input.leaveType
    status := if isUserAdmin db.users userId then Status.approved else Status.pending
    approvedBy := if isUserAdmin db.users userId then some userId else none
    updatedAt := now }

/-- Embeds `createHolidayRequest`: `requireAuth`, zod refinement
`endDate >= startDate`, advisory conflict check (result unused), then insert
of `submittedRequest`. -/
def createHolidayRequest (db : DB) (auth : Option Nat) (input : RequestInput)
    (now : Nat) : Except ActionError (DB × HolidayRequest) :=
  match auth with
  | none => .error .authenticationRequired
  | some userId =>
    if input.endDate < input.startDate then .error .invalidInput
    else
      let _conflicts := checkForConflicts db.requests input.startDate input.endDate
      let newRequest := submittedRequest db userId input now
      .ok ({ db with requests := db.requests ++ [newRequest],
                     nextId := db.nextId + 1 }, newRequest)

/-- Update run by `updateRequestStatus` on the requests table: the matching
row gets the new status, `approvedBy = currentUserId` and a fresh
`updatedAt`; other rows are untouched. -/
def decidedRequests (rs : List HolidayRequest) (requestId : Nat)
    (status : Status) (currentUserId now : Nat) : List HolidayRequest :=
  rs.map (fun r =>
    if r.id == requestId then
      { r with status := status, approvedBy := some currentUserId, updatedAt := now }
    else r)

/-- Embeds `updateRequestStatus(requestId, status)`: `requireAuth`, admin
gate, `['approved','rejected'].includes(status)` guard, then an update that
sets `status`, `approvedBy = currentUserId` and `updatedAt` on the matching
row, reporting `Request not found` when no row matched. -/
def updateRequestStatus (db : DB) (auth : Option Nat) (requestId : Nat)
    (status : Status) (now : Nat) : Except ActionError DB :=
  match auth with
  | none => .error .authenticationRequired
  | some currentUserId =>
    if !(isUserAdmin db.users currentUserId) then .error .adminRequired
    else if !(status == Status.approved || status == Status.rejected) then
      .error .invalidInput
    else if (findRequest db.requests requestId).isNone then .error .requestNotFound
    else
      .ok { db with requests := decidedRequests db.requests requestId status currentUserId now }

/-- Update run by `cancelHolidayRequest` on the requests table: the matching
row gets status `rejected` and a fresh `updatedAt`; other rows are
untouched. -/
def cancelledRequests (rs : List HolidayRequest) (requestId today : Nat) :
    List HolidayRequest :=
  rs.map (fun r =>
    if r.id == requestId then
      { r with status := Status.rejected, updatedAt := today }
    else r)

/-- Embeds `cancelHolidayRequest(requestId)`: `requireAuth`, lookup, owner-or-
admin gate, already-rejected guard, `request.startDate < today` guard, then
an update setting `status = 'rejected'` (and `updatedAt`). -/
def cancelHolidayRequest (db : DB) (auth : Option Nat) (requestId : Nat)
    (today : Nat) : Except ActionError DB :=
  match auth with
  | none => .error .authenticationRequired
  | some currentUserId =>
    match findRequest db.requests requestId with
    | none => .error .requestNotFound
    | some request =>
      let isAdmin := isUserAdmin db.users currentUserId
      let isOwner := request.userId == currentUserId
      if !isOwner && !isAdmin then .error .notOwnerForbidden
      else if request.status == Status.rejected then .error .alreadyRejected
      else if request.startDate < today then .error .alreadyStarted
      else
        .ok { db with requests := cancelledRequests db.requests requestId today }

/-- States reachable from an empty request table by the three lifecycle
operations submit, decide and cancel. -/
inductive Reachable : DB → Prop where
  | init (users : List User) (nextId : Nat) :
      Reachable ⟨users, [], nextId⟩
  | submit {db db' : DB} {r : HolidayRequest} (auth : Option Nat)
      (input : RequestInput) (now : Nat) :
      Reachable db → createHolidayRequest db auth input now = .ok (db', r) →
      Reachable db'
  | decideStep {db db' : DB} (auth : Option Nat) (requestId : Nat)
      (status : Status) (now : Nat) :
      Reachable db → updateRequestStatus db auth requestId status now = .ok db' →
      Reachable db'
  | cancelStep {db db' : DB} (auth : Option Nat) (requestId : Nat) (today : Nat) :
      Reachable db → cancelHolidayRequest db auth requestId today = .ok db' →
      Reachable db'

/-- Embeds `new Date(ms).getDay() !== 0 && getDay() !== 6` on an epoch-day
number: 1970-01-01 is JS weekday 4 (Thursday). -/
def isWeekday (d : Nat) : Bool :=
  (d + 4) % 7 != 0 && (d + 4) % 7 != 6

/-- List of the calendar days from `s` to `e` inclusive (empty when `s > e`),
the days visited by the `while (currentDate <= endDate)` loop. -/
def dayList (s e : Nat) : List Nat :=
  (List.range (e + 1 - s)).map (fun i => s + i)

/-- Embeds the per-request body of `calculateWeekdays`: count each day of
`[s, e]` whose weekday is Monday to Friday and which is not in the public-
holiday set (`holidays` is the `Set.has` membership test). -/
def countBusinessDays (s e : Nat) (holidays : Nat → Bool) : Nat :=
  (dayList s e).countP (fun d => isWeekday d && !holidays d)

/-- Balance snapshot returned by `calculatePtoBalance` (its `data` payload).
`remainingDays` is an integer because the code computes
`Math.max(0, totalAllowance - usedDays)` over JS numbers. -/
structure PtoBalance where
  totalAllowance : Nat
  usedDays : Nat
  remainingDays : Int
  pendingDays : Nat
  approvedCount : Nat
  pendingCount : Nat
deriving DecidableEq, Repr

/-- Selection predicate of the two `findMany` queries in `calculatePtoBalance`:
rows of `targetUserId` with the given `status`, `leaveType = 'annual'`, and
`startDate` between `yearStart` and `yearEnd`. -/
def ptoSelect (targetUserId yearStart yearEnd : Nat) (status : Status)
    (r : HolidayRequest) : Bool :=
  r.userId == targetUserId &&
  r.status == status &&
  r.leaveType == LeaveType.annual &&
  decide (yearStart ≤ r.startDate) &&
  decide (r.startDate ≤ yearEnd)

/-- Embeds the inner `calculateWeekdays` helper: `requests.reduce` of the
per-request weekday count (the loop body is `countBusinessDays`). -/
def calculateWeekdays (requests : List HolidayRequest) (holidays : Nat → Bool) :
    Nat :=
  requests.foldl (fun total r => total + countBusinessDays r.startDate r.endDate holidays) 0

/-- Embeds the computational core of `calculatePtoBalance` for a target user:
query approved and pending annual requests starting within the year, sum
business days with the country holiday set, fix `totalAllowance = 25` and
return `remainingDays = Math.max(0, totalAllowance - usedDays)`. -/
def calculatePtoBalance (requests : List HolidayRequest)
    (targetUserId yearStart yearEnd : Nat) (holidays : Nat → Bool) : PtoBalance :=
  let approvedRequests := requests.filter (ptoSelect targetUserId yearStart yearEnd Status.approved)
  let pendingRequests := requests.filter (ptoSelect targetUserId yearStart yearEnd Status.pending)
  let usedDays := calculateWeekdays approvedRequests holidays
  let pendingDays := calculateWeekdays pendingRequests holidays
  let totalAllowance : Nat := 25
  let remainingDays : Int := max 0 ((totalAllowance : Int) - (usedDays : Int))
  { totalAllowance := totalAllowance
    usedDays := usedDays
    remainingDays := remainingDays
    pendingDays := pendingDays
    approvedCount := approvedRequests.length
    pendingCount := pendingRequests.length }

/-- Holiday record as delivered by the Nager.Date provider (the fields
consumed by `convertNagerToDbFormat`). Dates stay ISO strings here because
the cache key and the `year` derivation use the string form. -/
structure NagerHoliday where
  countryCode : String
  date : String
  name : String
  localName : String
  htype : String
deriving DecidableEq, Repr

/-- Row of the `publicHolidays` table (columns the core reads or writes). -/
structure PublicHoliday where
  country : String
  date : String
  name : String
  localName : String
  htype : String
  year : Nat
  updatedAt : Nat
deriving DecidableEq, Repr

/-- Embeds `new Date(iso).getFullYear()` on a well-formed `YYYY-MM-DD` string:
the leading four digits. -/
def yearOfIso (date : String) : Nat :=
  ((date.take 4).toNat?).getD 0

/-- Embeds `convertNagerToDbFormat` minus the store-generated columns. -/
structure NewPublicHoliday where
  country : String
  date : String
  name : String
  localName : String
  htype : String
  year : Nat
deriving DecidableEq, Repr

/-- Embeds `convertNagerToDbFormat(nagerHoliday)`. -/
def convertNagerToDbFormat (h : NagerHoliday) : NewPublicHoliday :=
  { country := h.countryCode
    date := h.date
    name := h.name
    localName := h.localName
    htype := h.htype
    year := yearOfIso h.date }

/-- Uniqueness key of the `publicHolidays` table: `(country, date)`. -/
def holidayKey (row : PublicHoliday) : String × String :=
  (row.country, row.date)

/-- Single-record semantics of `INSERT ... ON CONFLICT (country, date) DO
UPDATE SET name, local_name, type, updated_at = now()`: when a row with the
key exists, update its business fields and `updatedAt`; otherwise append a
fresh row. -/
def upsertHoliday (tbl : List PublicHoliday) (h : NewPublicHoliday) (now : Nat) :
    List PublicHoliday :=
  if tbl.any (fun row => row.country == h.country && row.date == h.date) then
    tbl.map (fun row =>
      if row.country == h.country && row.date == h.date then
        { row with name := h.name, localName := h.localName,
                   htype := h.htype, updatedAt := now }
      else row)
  else
    tbl ++ [{ country := h.country, date := h.date, name := h.name,
              localName := h.localName, htype := h.htype, year := h.year,
              updatedAt := now }]

/-- Embeds `storeHolidays(holidays)` against a table state: convert each
provider record and upsert it keyed by `(country, date)`. -/
def storeHolidays (tbl : List PublicHoliday) (holidays : List NagerHoliday)
    (now : Nat) : List PublicHoliday :=
  (holidays.map convertNagerToDbFormat).foldl (fun t h => upsertHoliday t h now) tbl

/-- At most one row per `(country, date)` key. -/
def UniqueKeys (tbl : List PublicHoliday) : Prop :=
  (tbl.map holidayKey).Nodup

/-- Concrete admin user for the example databases. -/
def exAdmin : User := ⟨1, Role.admin, none⟩

/-- Concrete member user for the example databases. -/
def exMember : User := ⟨2, Role.member, none⟩

/-- Approved request of a third user occupying days 10 to 12, used to show
submissions succeed in the presence of advisory conflicts. -/
def exConflict : HolidayRequest :=
  ⟨0, 3, 10, 12, LeaveType.annual, Status.approved, some 1, 0⟩

/-- Example database with one approved request already stored. -/
def exDb : DB := ⟨[exAdmin, exMember], [exConflict], 1⟩

/-- Submission input for days 11 to 15, overlapping `exConflict`. -/
def exInput : RequestInput := ⟨11, 15, LeaveType.annual, none⟩

/-- Approved request of user 7 for days 10 to 12, used with user 7 as the
requester to probe the team-overlap check. -/
def ownRequest : HolidayRequest :=
  ⟨0, 7, 10, 12, LeaveType.annual, Status.approved, some 1, 0⟩

/-- Holiday membership test containing exactly day 18, a Monday under the
epoch-day convention (18 + 4 = 22 and 22 % 7 = 1). -/
def exHolidaySet : Nat → Bool := fun d => d == 18

/-- Pending request of the member user, with no approver recorded. -/
def pendingReq : HolidayRequest :=
  ⟨0, 2, 10, 12, LeaveType.annual, Status.pending, none, 0⟩

/-- Database holding the single pending request `pendingReq`. -/
def decideDb : DB := ⟨[exAdmin, exMember], [pendingReq], 1⟩

/-- Submission input for days 10 to 12. -/
def reqInput : RequestInput := ⟨10, 12, LeaveType.annual, none⟩

/-- Empty database whose only user is the admin. -/
def adminOnlyDb : DB := ⟨[exAdmin], [], 0⟩

/-- Request created when the admin submits `reqInput` at time 5:
auto-approved with the admin as approver. -/
def adminApprovedReq : HolidayRequest :=
  ⟨0, 1, 10, 12, LeaveType.annual, Status.approved, some 1, 5⟩

/-- Database state after the admin submission. -/
def afterAdminSubmitDb : DB := ⟨[exAdmin], [adminApprovedReq], 1⟩

/-- Request state after the admin cancels their approved request on day 9:
status `rejected` while `approvedBy` is still set. -/
def adminCancelledReq : HolidayRequest :=
  ⟨0, 1, 10, 12, LeaveType.annual, Status.rejected, some 1, 9⟩

/-- Database state after the cancellation. -/
def afterAdminCancelDb : DB := ⟨[exAdmin], [adminCancelledReq], 1⟩

/-- Empty database with one admin and one member. -/
def teamDb : DB := ⟨[exAdmin, exMember], [], 0⟩

/-- Request created when member 2 submits `reqInput` at time 3. -/
def memberPendingReq : HolidayRequest :=
  ⟨0, 2, 10, 12, LeaveType.annual, Status.pending, none, 3⟩

/-- Database state after the member submission. -/
def afterMemberSubmitDb : DB := ⟨[exAdmin, exMember], [memberPendingReq], 1⟩

/-- Request state after admin 1 rejects it at time 4. -/
def memberRejectedReq : HolidayRequest :=
  ⟨0, 2, 10, 12, LeaveType.annual, Status.rejected, some 1, 4⟩

/-- Database state after the rejection. -/
def afterRejectDb : DB := ⟨[exAdmin, exMember], [memberRejectedReq], 1⟩

/-- Request state after admin 1 re-approves the rejected request at time 6. -/
def memberReApprovedReq : HolidayRequest :=
  ⟨0, 2, 10, 12, LeaveType.annual, Status.approved, some 1, 6⟩

/-- Database state after the re-approval. -/
def afterReApproveDb : DB := ⟨[exAdmin, exMember], [memberReApprovedReq], 1⟩

/-- Approved annual request starting inside the year window days 10 to 20
but ending after it, on day 25. -/
def crossYearReq : HolidayRequest :=
  ⟨0, 1, 15, 25, LeaveType.annual, Status.approved, some 1, 0⟩

/-- Approved annual request starting before the year window days 10 to 20. -/
def priorYearReq : HolidayRequest :=
  ⟨1, 1, 5, 11, LeaveType.annual, Status.approved, some 1, 0⟩

/-- Empty holiday exclusion set. -/
def noHolidays : Nat → Bool := fun _ => false

/-- Concrete provider record for the ingestion example. -/
def exNager : NagerHoliday :=
  ⟨"PT", "2025-12-25", "Christmas Day", "Natal", "Public"⟩

/-- Row stored for `exNager` after the second ingest at time 2 (the `year`
column keeps its symbolic derivation from the date). -/
def exStoredRow : PublicHoliday :=
  ⟨"PT", "2025-12-25", "Christmas Day", "Natal", "Public",
   yearOfIso "2025-12-25", 2⟩


end HolidayTracker

namespace HolidayTracker

/-- C3: an authenticated submission with a valid date range always creates
the request, even when advisory conflicts exist (the conflict computation
does not influence the result); the created row has status `approved` with
`approvedBy = submitter` when the submitter is an admin, and status
`pending` with `approvedBy = null` otherwise. -/
theorem submit_always_creates (db : DB) (userId : Nat) (input : RequestInput)
    (now : Nat) (hvalid : input.startDate ≤ input.endDate) :
    createHolidayRequest db (some userId) input now =
      .ok ({ db with requests := db.requests ++ [submittedRequest db userId input now],
                     nextId := db.nextId + 1 },
           submittedRequest db userId input now) ∧
    (isUserAdmin db.users userId = true →
      (submittedRequest db userId input now).status = Status.approved ∧
      (submittedRequest db userId input now).approvedBy = some userId) ∧
    (isUserAdmin db.users userId = false →
      (submittedRequest db userId input now).status = Status.pending ∧
      (submittedRequest db userId input now).approvedBy = none) := by
  have hlt : ¬ input.endDate < input.startDate := Nat.not_lt.mpr hvalid
  refine ⟨?_, ?_, ?_⟩
  · simp [createHolidayRequest, submittedRequest, hlt]
  · intro h; simp [submittedRequest, h]
  · intro h; simp [submittedRequest, h]

/-- Witness for C3: a member submits days 11 to 15 while an approved
conflicting request for days 10 to 12 exists; the request is still created,
as `pending` with no approver. -/
theorem submit_always_creates_witness :
    createHolidayRequest exDb (some 2) exInput 5 =
      .ok ({ exDb with requests := exDb.requests ++ [submittedRequest exDb 2 exInput 5],
                       nextId := exDb.nextId + 1 },
           submittedRequest exDb 2 exInput 5) ∧
    (isUserAdmin exDb.users 2 = true →
      (submittedRequest exDb 2 exInput 5).status = Status.approved ∧
      (submittedRequest exDb 2 exInput 5).approvedBy = some 2) ∧
    (isUserAdmin exDb.users 2 = false →
      (submittedRequest exDb 2 exInput 5).status = Status.pending ∧
      (submittedRequest exDb 2 exInput 5).approvedBy = none) :=
  submit_always_creates exDb 2 exInput 5 (by decide)

/-- C6 counterexample: the team-overlap check has no requester filter.
With user 7 as the requester proposing days 11 to 15, user 7's own approved
request for days 10 to 12 is returned, although the claim says only requests
of users other than the requester are returned. -/
theorem conflicts_include_requester_own_request :
    checkForConflicts [ownRequest] 11 15 = [ownRequest] ∧ ownRequest.userId = 7 := by
  constructor
  · rfl
  · rfl

/-- C6 amended: the team-overlap conflict check returns exactly the stored
requests with status `approved` satisfying the closed-interval test
`existing.start <= e` and `existing.end >= s` (so intervals touching only at
an endpoint count as overlapping); it does not exclude the requester's own
requests. -/
theorem conflicts_mem_iff (rs : List HolidayRequest) (s e : Nat)
    (r : HolidayRequest) :
    r ∈ checkForConflicts rs s e ↔
      r ∈ rs ∧ r.status = Status.approved ∧ r.startDate ≤ e ∧ r.endDate ≥ s := by
  simp [checkForConflicts, List.mem_filter, and_assoc]

/-- Appending one more day to an inclusive range appends one day to its list
of visited days. -/
theorem dayList_succ {s e : Nat} (h : s ≤ e + 1) :
    dayList s (e + 1) = dayList s e ++ [e + 1] := by
  unfold dayList
  have h1 : e + 1 + 1 - s = (e + 1 - s) + 1 := by omega
  rw [h1, List.range_succ, List.map_append, List.map_singleton]
  have h2 : s + (e + 1 - s) = e + 1 := by omega
  rw [h2]

/-- C7: for every valid range `[s, e]` with `s <= e`, the business-day count
with any holiday exclusion set `H` is at most the count with the empty
exclusion set, and extending `e` by one calendar day never decreases the
count. -/
theorem countBusinessDays_monotone (s e : Nat) (H : Nat → Bool) (hse : s ≤ e) :
    countBusinessDays s e H ≤ countBusinessDays s e (fun _ => false) ∧
    countBusinessDays s e H ≤ countBusinessDays s (e + 1) H := by
  constructor
  · apply List.countP_mono_left
    intro d _ hd
    simp only [Bool.and_eq_true, Bool.not_eq_eq_eq_not, Bool.not_true] at hd ⊢
    exact ⟨hd.1, trivial⟩
  · unfold countBusinessDays
    rw [dayList_succ (Nat.le_succ_of_le hse), List.countP_append]
    exact Nat.le_add_right _ _

/-- Witness for C7 on the concrete range of days 14 to 20 with the
single-holiday exclusion set containing day 18. -/
theorem countBusinessDays_monotone_witness :
    countBusinessDays 14 20 exHolidaySet ≤ countBusinessDays 14 20 (fun _ => false) ∧
    countBusinessDays 14 20 exHolidaySet ≤ countBusinessDays 14 (20 + 1) exHolidaySet :=
  countBusinessDays_monotone 14 20 exHolidaySet (by decide)

/-- Finding a request by id commutes with any row transformation that
preserves ids. -/
theorem findRequest_map_preserving (rs : List HolidayRequest) (requestId : Nat)
    (f : HolidayRequest → HolidayRequest) (hf : ∀ r, (f r).id = r.id) :
    findRequest (rs.map f) requestId = (findRequest rs requestId).map f := by
  induction rs with
  | nil => rfl
  | cons a l ih =>
    unfold findRequest at ih ⊢
    simp only [List.map_cons]
    cases h : (a.id == requestId) with
    | true =>
      rw [List.find?_cons_of_pos _ (by simp [hf, h]),
          List.find?_cons_of_pos _ (by simp [h])]
      rfl
    | false =>
      rw [List.find?_cons_of_neg _ (by simp [hf, h]),
          List.find?_cons_of_neg _ (by simp [h])]
      exact ih

/-- C4 counterexample: rejecting a pending request records the deciding
admin in `approvedBy` instead of leaving it cleared: user 1 (an admin)
rejects request 0, whose `approvedBy` was null, and afterwards the row
carries `approvedBy = some 1` with status `rejected`. -/
theorem decide_reject_sets_approver :
    pendingReq.approvedBy = none ∧
    updateRequestStatus decideDb (some 1) 0 Status.rejected 5 =
      .ok { decideDb with
              requests := [⟨0, 2, 10, 12, LeaveType.annual, Status.rejected, some 1, 5⟩] } ∧
    (⟨0, 2, 10, 12, LeaveType.annual, Status.rejected, some 1, 5⟩ :
        HolidayRequest).approvedBy ≠ none := by
  refine ⟨rfl, rfl, by simp⟩

/-- C4 amended: `decide` fails with an authorization error when the deciding
user lacks admin capability, fails with a not-found error when the request
does not exist, and otherwise sets the request's status to the outcome and
sets `approvedBy` to the deciding user for BOTH outcomes (rather than
clearing or ignoring it on rejection). -/
theorem decide_spec (db : DB) (uid requestId : Nat) (st : Status) (now : Nat)
    (hst : st = Status.approved ∨ st = Status.rejected) :
    (isUserAdmin db.users uid = false →
      updateRequestStatus db (some uid) requestId st now = .error .adminRequired) ∧
    (isUserAdmin db.users uid = true → findRequest db.requests requestId = none →
      updateRequestStatus db (some uid) requestId st now = .error .requestNotFound) ∧
    (∀ r, isUserAdmin db.users uid = true →
      findRequest db.requests requestId = some r →
      updateRequestStatus db (some uid) requestId st now =
        .ok { db with requests := decidedRequests db.requests requestId st uid now } ∧
      findRequest (decidedRequests db.requests requestId st uid now) requestId =
        some { r with status := st, approvedBy := some uid, updatedAt := now }) := by
  have hguard : (st == Status.approved || st == Status.rejected) = true := by
    rcases hst with h | h <;> simp [h]
  refine ⟨?_, ?_, ?_⟩
  · intro hadmin
    simp [updateRequestStatus, hadmin]
  · intro hadmin hfind
    simp [updateRequestStatus, hadmin, hguard, hfind]
  · intro r hadmin hfind
    have hr : (r.id == requestId) = true := by
      unfold findRequest at hfind
      have h2 := List.find?_some hfind
      simpa using h2
    constructor
    · simp [updateRequestStatus, hadmin, hguard, hfind]
    · rw [decidedRequests,
          findRequest_map_preserving db.requests requestId _
            (fun x => by cases hx : (x.id == requestId) <;> simp [hx]),
          hfind, Option.map_some', if_pos hr]

/-- Witness for C4 amended: admin user 1 approves the pending request 0 of
member 2; the result row has status `approved` and `approvedBy = some 1`. -/
theorem decide_spec_witness :
    updateRequestStatus decideDb (some 1) 0 Status.approved 7 =
      .ok { decideDb with requests := decidedRequests decideDb.requests 0 Status.approved 1 7 } ∧
    findRequest (decidedRequests decideDb.requests 0 Status.approved 1 7) 0 =
      some { pendingReq with status := Status.approved, approvedBy := some 1, updatedAt := 7 } :=
  (decide_spec decideDb 1 0 Status.approved 7 (Or.inl rfl)).2.2 pendingReq rfl rfl

/-- C5: for an existing request, cancellation by a caller who is neither the
owner nor an admin fails with the forbidden error; for an owner or admin
caller it fails with an invalid-state error when the request is already
rejected or its start date lies strictly before today, and otherwise it
succeeds, setting the request's status to `rejected`. -/
theorem cancel_spec (db : DB) (uid requestId today : Nat) (r : HolidayRequest)
    (hfind : findRequest db.requests requestId = some r) :
    (r.userId ≠ uid → isUserAdmin db.users uid = false →
      cancelHolidayRequest db (some uid) requestId today = .error .notOwnerForbidden) ∧
    ((r.userId = uid ∨ isUserAdmin db.users uid = true) →
      r.status = Status.rejected →
      cancelHolidayRequest db (some uid) requestId today = .error .alreadyRejected) ∧
    ((r.userId = uid ∨ isUserAdmin db.users uid = true) →
      r.status ≠ Status.rejected → r.startDate < today →
      cancelHolidayRequest db (some uid) requestId today = .error .alreadyStarted) ∧
    ((r.userId = uid ∨ isUserAdmin db.users uid = true) →
      r.status ≠ Status.rejected → ¬ (r.startDate < today) →
      cancelHolidayRequest db (some uid) requestId today =
        .ok { db with requests := cancelledRequests db.requests requestId today } ∧
      findRequest (cancelledRequests db.requests requestId today) requestId =
        some { r with status := Status.rejected, updatedAt := today }) := by
  have hr : (r.id == requestId) = true := by
    unfold findRequest at hfind
    have h2 := List.find?_some hfind
    simpa using h2
  refine ⟨?_, ?_, ?_, ?_⟩
  · intro hown hadmin
    simp [cancelHolidayRequest, hfind, hown, hadmin]
  · intro hor hst
    have hguard : (!(r.userId == uid) && !(isUserAdmin db.users uid)) = false := by
      rcases hor with h | h <;> simp [h]
    simp [cancelHolidayRequest, hfind, hguard, hst]
  · intro hor hst hlt
    have hguard : (!(r.userId == uid) && !(isUserAdmin db.users uid)) = false := by
      rcases hor with h | h <;> simp [h]
    simp [cancelHolidayRequest, hfind, hguard, hst, hlt]
  · intro hor hst hlt
    have hguard : (!(r.userId == uid) && !(isUserAdmin db.users uid)) = false := by
      rcases hor with h | h <;> simp [h]
    constructor
    · simp [cancelHolidayRequest, hfind, hguard, hst, hlt]
    · rw [cancelledRequests,
          findRequest_map_preserving db.requests requestId _
            (fun x => by cases hx : (x.id == requestId) <;> simp [hx]),
          hfind, Option.map_some', if_pos hr]

/-- Witness for C5: member 2 cancels their own pending request 0 starting on
day 10 with today being day 9; the cancellation succeeds and the row becomes
`rejected`. -/
theorem cancel_spec_witness :
    cancelHolidayRequest decideDb (some 2) 0 9 =
      .ok { decideDb with requests := cancelledRequests decideDb.requests 0 9 } ∧
    findRequest (cancelledRequests decideDb.requests 0 9) 0 =
      some { pendingReq with status := Status.rejected, updatedAt := 9 } :=
  (cancel_spec decideDb 2 0 9 pendingReq rfl).2.2.2 (Or.inl rfl) (by decide) (by decide)

/-- Inversion of a successful submission: the caller was authenticated, the
date range was valid, and the new state appends `submittedRequest`. -/
theorem createHolidayRequest_ok {db db' : DB} {r : HolidayRequest}
    {auth : Option Nat} {input : RequestInput} {now : Nat}
    (h : createHolidayRequest db auth input now = .ok (db', r)) :
    ∃ userId, auth = some userId ∧ input.startDate ≤ input.endDate ∧
      r = submittedRequest db userId input now ∧
      db' = { db with requests := db.requests ++ [r], nextId := db.nextId + 1 } := by
  cases auth with
  | none => simp [createHolidayRequest] at h
  | some uid =>
    by_cases hlt : input.endDate < input.startDate
    · simp [createHolidayRequest, hlt] at h
    · simp only [createHolidayRequest, if_neg hlt] at h
      injection h with h2
      obtain ⟨h3, h4⟩ := Prod.mk.injEq .. ▸ h2
      exact ⟨uid, rfl, Nat.le_of_not_lt hlt, h4.symm, by rw [← h3, h4]⟩

/-- Inversion of a successful decision: the caller was an authenticated
admin and the new state is `decidedRequests`. -/
theorem updateRequestStatus_ok {db db' : DB} {auth : Option Nat}
    {requestId : Nat} {st : Status} {now : Nat}
    (h : updateRequestStatus db auth requestId st now = .ok db') :
    ∃ uid, auth = some uid ∧
      db' = { db with requests := decidedRequests db.requests requestId st uid now } := by
  cases auth with
  | none => simp [updateRequestStatus] at h
  | some uid =>
    simp only [updateRequestStatus] at h
    split at h
    · exact Except.noConfusion h
    · split at h
      · exact Except.noConfusion h
      · split at h
        · exact Except.noConfusion h
        · injection h with h2
          exact ⟨uid, rfl, h2.symm⟩

/-- Inversion of a successful cancellation: the new state is
`cancelledRequests`. -/
theorem cancelHolidayRequest_ok {db db' : DB} {auth : Option Nat}
    {requestId today : Nat}
    (h : cancelHolidayRequest db auth requestId today = .ok db') :
    db' = { db with requests := cancelledRequests db.requests requestId today } := by
  cases auth with
  | none => simp [cancelHolidayRequest] at h
  | some uid =>
    simp only [cancelHolidayRequest] at h
    cases hfind : findRequest db.requests requestId with
    | none => rw [hfind] at h; exact Except.noConfusion h
    | some r =>
      rw [hfind] at h
      simp only at h
      split at h
      · exact Except.noConfusion h
      · split at h
        · exact Except.noConfusion h
        · split at h
          · exact Except.noConfusion h
          · injection h with h2
            exact h2.symm

/-- C1 counterexample: the state reached by an admin submitting (request
auto-approved with `approvedBy = some 1`) and then cancelling the request
(status becomes `rejected`, `approvedBy` untouched) contains a request with
status `rejected` and a non-null `approvedBy`, refuting the claimed
if-and-only-if invariant. -/
theorem approvedBy_iff_fails :
    Reachable afterAdminCancelDb ∧
    adminCancelledReq ∈ afterAdminCancelDb.requests ∧
    ¬ (adminCancelledReq.approvedBy ≠ none ↔
        adminCancelledReq.status = Status.approved) := by
  refine ⟨?_, by decide, by decide⟩
  have h0 : Reachable adminOnlyDb := Reachable.init [exAdmin] 0
  have h1 : Reachable afterAdminSubmitDb :=
    Reachable.submit (some 1) reqInput 5 h0 rfl
  exact Reachable.cancelStep (some 1) 0 9 h1 rfl

/-- C1 amended: in every state reachable by submit, decide and cancel, a
request with status `approved` has a non-null `approvedBy`; the converse
direction of the claimed invariant fails (see the counterexample), since
rejected requests can also carry a non-null `approvedBy`. -/
theorem approved_has_approver {db : DB} (h : Reachable db) :
    ∀ r ∈ db.requests, r.status = Status.approved → r.approvedBy ≠ none := by
  induction h with
  | init users nextId =>
    intro r hr
    simp at hr
  | @submit dbp dbp' r0 auth input now hprev heq ih =>
    obtain ⟨uid, -, -, hr0, hdb'⟩ := createHolidayRequest_ok heq
    subst hdb'
    intro r hr hst
    rcases List.mem_append.mp hr with hmem | hmem
    · exact ih r hmem hst
    · rw [List.mem_singleton.mp hmem, hr0] at hst ⊢
      by_cases hadmin : isUserAdmin dbp.users uid = true
      · simp [submittedRequest, hadmin]
      · rw [Bool.not_eq_true] at hadmin
        simp [submittedRequest, hadmin] at hst
  | @decideStep dbp dbp' auth requestId st now hprev heq ih =>
    obtain ⟨uid, -, hdb'⟩ := updateRequestStatus_ok heq
    subst hdb'
    intro r hr hst
    obtain ⟨x, hx, hfx⟩ := List.mem_map.mp hr
    by_cases hid : (x.id == requestId) = true
    · rw [if_pos hid] at hfx
      rw [← hfx]
      simp
    · rw [Bool.not_eq_true] at hid
      rw [if_neg (by simp [hid])] at hfx
      subst hfx
      exact ih x hx hst
  | @cancelStep dbp dbp' auth requestId today hprev heq ih =>
    have hdb' := cancelHolidayRequest_ok heq
    subst hdb'
    intro r hr hst
    obtain ⟨x, hx, hfx⟩ := List.mem_map.mp hr
    by_cases hid : (x.id == requestId) = true
    · rw [if_pos hid] at hfx
      rw [← hfx] at hst
      simp at hst
    · rw [Bool.not_eq_true] at hid
      rw [if_neg (by simp [hid])] at hfx
      subst hfx
      exact ih x hx hst

/-- Witness for C1 amended: in the reachable state right after the admin
submission, the auto-approved request has a non-null approver. -/
theorem approved_has_approver_witness :
    adminApprovedReq.approvedBy ≠ none :=
  approved_has_approver
    (Reachable.submit (some 1) reqInput 5 (Reachable.init [exAdmin] 0) rfl)
    adminApprovedReq (by decide) rfl

/-- C2 counterexample: from a reachable state holding a rejected request
(member submission rejected by the admin), a further decide operation by the
admin with outcome `approved` succeeds and changes the status to `approved`,
so `rejected` is not terminal. -/
theorem rejected_not_terminal :
    Reachable afterRejectDb ∧
    findRequest afterRejectDb.requests 0 = some memberRejectedReq ∧
    memberRejectedReq.status = Status.rejected ∧
    updateRequestStatus afterRejectDb (some 1) 0 Status.approved 6 =
      .ok afterReApproveDb ∧
    findRequest afterReApproveDb.requests 0 = some memberReApprovedReq ∧
    memberReApprovedReq.status = Status.approved := by
  refine ⟨?_, rfl, rfl, rfl, rfl, rfl⟩
  have h0 : Reachable teamDb := Reachable.init [exAdmin, exMember] 0
  have h1 : Reachable afterMemberSubmitDb :=
    Reachable.submit (some 2) reqInput 3 h0 rfl
  exact Reachable.decideStep (some 1) 0 Status.rejected 4 h1 rfl

/-- C2 amended: `rejected` is terminal only with respect to cancel: a cancel
operation on a request whose status is `rejected` always fails (with an
authentication, forbidden, or invalid-state error) and therefore never
changes its status; a decide operation by an admin can still change the
status of a rejected request (see the counterexample). -/
theorem rejected_terminal_for_cancel (db : DB) (auth : Option Nat)
    (requestId today : Nat) (r : HolidayRequest)
    (hfind : findRequest db.requests requestId = some r)
    (hst : r.status = Status.rejected) :
    cancelHolidayRequest db auth requestId today = .error .authenticationRequired ∨
    cancelHolidayRequest db auth requestId today = .error .notOwnerForbidden ∨
    cancelHolidayRequest db auth requestId today = .error .alreadyRejected := by
  cases auth with
  | none => exact Or.inl rfl
  | some uid =>
    by_cases hguard : (!(r.userId == uid) && !(isUserAdmin db.users uid)) = true
    · refine Or.inr (Or.inl ?_)
      simp [cancelHolidayRequest, hfind, hguard]
    · refine Or.inr (Or.inr ?_)
      have hguard2 := Bool.eq_false_iff.mpr hguard
      simp [cancelHolidayRequest, hfind, hguard2, hst]

/-- Witness for C2 amended: member 2 attempting to cancel their rejected
request fails. -/
theorem rejected_terminal_for_cancel_witness :
    cancelHolidayRequest afterRejectDb (some 2) 0 9 = .error .authenticationRequired ∨
    cancelHolidayRequest afterRejectDb (some 2) 0 9 = .error .notOwnerForbidden ∨
    cancelHolidayRequest afterRejectDb (some 2) 0 9 = .error .alreadyRejected :=
  rejected_terminal_for_cancel afterRejectDb (some 2) 0 9 memberRejectedReq rfl rfl

/-- Characterization of the balance query selection predicate. -/
theorem ptoSelect_eq_true_iff (uid ys ye : Nat) (st : Status) (r : HolidayRequest) :
    ptoSelect uid ys ye st r = true ↔
      r.userId = uid ∧ r.status = st ∧ r.leaveType = LeaveType.annual ∧
      ys ≤ r.startDate ∧ r.startDate ≤ ye := by
  simp [ptoSelect, and_assoc]

/-- The request-list fold of `calculateWeekdays` equals the sum of the
per-request business-day counts. -/
theorem calculateWeekdays_eq_sum (requests : List HolidayRequest) (H : Nat → Bool) :
    calculateWeekdays requests H =
      (requests.map (fun r => countBusinessDays r.startDate r.endDate H)).sum := by
  rw [calculateWeekdays, List.sum_eq_foldl, List.foldl_map]

/-- Restricting the input to approved-or-pending rows does not change the
balance query selection for an approved or pending status. -/
theorem ptoSelect_filter_keep (uid ys ye : Nat) (st : Status)
    (hst : st = Status.approved ∨ st = Status.pending)
    (requests : List HolidayRequest) :
    (requests.filter
        (fun r => r.status == Status.approved || r.status == Status.pending)).filter
      (ptoSelect uid ys ye st) =
      requests.filter (ptoSelect uid ys ye st) := by
  rw [List.filter_filter]
  apply List.filter_congr
  intro r hr
  cases hp : ptoSelect uid ys ye st r
  · simp
  · have hstatus : r.status = st := ((ptoSelect_eq_true_iff uid ys ye st r).mp hp).2.1
    rcases hst with h | h <;> simp [hstatus, h]

/-- C8: the balance computation selects exactly the user's annual requests
with start date inside the year window, sums their business days into
`usedDays` (approved) and `pendingDays` (pending), is unchanged when rows of
any other status are removed from the input, and returns
`remainingDays = max 0 (25 - usedDays)`, which is never negative. -/
theorem pto_balance_spec (requests : List HolidayRequest) (uid ys ye : Nat)
    (H : Nat → Bool) :
    (calculatePtoBalance requests uid ys ye H).usedDays =
      ((requests.filter (ptoSelect uid ys ye Status.approved)).map
        (fun r => countBusinessDays r.startDate r.endDate H)).sum ∧
    (calculatePtoBalance requests uid ys ye H).pendingDays =
      ((requests.filter (ptoSelect uid ys ye Status.pending)).map
        (fun r => countBusinessDays r.startDate r.endDate H)).sum ∧
    (∀ st r, r ∈ requests.filter (ptoSelect uid ys ye st) ↔
      r ∈ requests ∧ r.userId = uid ∧ r.status = st ∧
      r.leaveType = LeaveType.annual ∧ ys ≤ r.startDate ∧ r.startDate ≤ ye) ∧
    calculatePtoBalance requests uid ys ye H =
      calculatePtoBalance
        (requests.filter
          (fun r => r.status == Status.approved || r.status == Status.pending))
        uid ys ye H ∧
    (calculatePtoBalance requests uid ys ye H).remainingDays =
      max 0 (25 - ((calculatePtoBalance requests uid ys ye H).usedDays : Int)) ∧
    0 ≤ (calculatePtoBalance requests uid ys ye H).remainingDays := by
  refine ⟨calculateWeekdays_eq_sum _ H, calculateWeekdays_eq_sum _ H, ?_, ?_, rfl, ?_⟩
  · intro st r
    simp [List.mem_filter, ptoSelect_eq_true_iff]
  · have ha := ptoSelect_filter_keep uid ys ye Status.approved (Or.inl rfl) requests
    have hp := ptoSelect_filter_keep uid ys ye Status.pending (Or.inr rfl) requests
    simp [calculatePtoBalance, ha, hp]
  · exact le_max_left 0 _

/-- Splitting an inclusive day range at an interior point splits its list of
visited days. -/
theorem dayList_append {s m e : Nat} (h1 : s ≤ m + 1) (h2 : m ≤ e) :
    dayList s e = dayList s m ++ dayList (m + 1) e := by
  unfold dayList
  have key : e + 1 - s = (m + 1 - s) + (e - m) := by omega
  rw [key, List.range_add, List.map_append, List.map_map]
  congr 1
  have he : e + 1 - (m + 1) = e - m := by omega
  rw [he]
  apply List.map_congr_left
  intro i hi
  simp only [Function.comp_apply]
  omega

/-- C10: a request is attributed entirely to the year window containing its
start date: when the start date lies inside `[ys, ye]`, the full inclusive
range of the request is added to `usedDays`, and when the end date exceeds
`ye` that count splits into the in-window days plus the days after `ye`
(which are still debited); a request starting before `ys` contributes
nothing to the balance. -/
theorem pto_year_attribution (requests : List HolidayRequest)
    (uid ys ye : Nat) (H : Nat → Bool) (r : HolidayRequest) :
    (r.userId = uid → r.status = Status.approved →
      r.leaveType = LeaveType.annual → ys ≤ r.startDate → r.startDate ≤ ye →
      (calculatePtoBalance (r :: requests) uid ys ye H).usedDays =
        countBusinessDays r.startDate r.endDate H +
        (calculatePtoBalance requests uid ys ye H).usedDays) ∧
    (r.startDate < ys →
      calculatePtoBalance (r :: requests) uid ys ye H =
        calculatePtoBalance requests uid ys ye H) ∧
    (r.startDate ≤ ye → ye < r.endDate →
      countBusinessDays r.startDate r.endDate H =
        countBusinessDays r.startDate ye H +
        countBusinessDays (ye + 1) r.endDate H) := by
  refine ⟨?_, ?_, ?_⟩
  · intro huid hst hlt hys hye
    have hsel : ptoSelect uid ys ye Status.approved r = true :=
      (ptoSelect_eq_true_iff uid ys ye Status.approved r).mpr
        ⟨huid, hst, hlt, hys, hye⟩
    have hnp : ptoSelect uid ys ye Status.pending r = false := by
      cases hval : ptoSelect uid ys ye Status.pending r
      · rfl
      · have := ((ptoSelect_eq_true_iff uid ys ye Status.pending r).mp hval).2.1
        rw [hst] at this
        exact absurd this (by simp)
    simp [calculatePtoBalance, List.filter_cons, hsel, hnp,
          calculateWeekdays_eq_sum]
  · intro hlt
    have hna : ∀ st, ptoSelect uid ys ye st r = false := by
      intro st
      cases hval : ptoSelect uid ys ye st r
      · rfl
      · have := ((ptoSelect_eq_true_iff uid ys ye st r).mp hval).2.2.2.1
        omega
    simp [calculatePtoBalance, List.filter_cons, hna]
  · intro hse hye
    unfold countBusinessDays
    rw [dayList_append (by omega : r.startDate ≤ ye + 1) (le_of_lt hye),
        List.countP_append]

/-- Witness for C10: with the year window days 10 to 20 and no holidays, the
cross-year request days 15 to 25 is debited for its full range, the split at
day 20 exposes the days 21 to 25 beyond the window, and the request starting
on day 5 contributes nothing. -/
theorem pto_year_attribution_witness :
    ((calculatePtoBalance [crossYearReq] 1 10 20 noHolidays).usedDays =
      countBusinessDays 15 25 noHolidays +
      (calculatePtoBalance [] 1 10 20 noHolidays).usedDays) ∧
    (calculatePtoBalance [priorYearReq] 1 10 20 noHolidays =
      calculatePtoBalance [] 1 10 20 noHolidays) ∧
    (countBusinessDays 15 25 noHolidays =
      countBusinessDays 15 20 noHolidays + countBusinessDays 21 25 noHolidays) :=
  ⟨(pto_year_attribution [] 1 10 20 noHolidays crossYearReq).1
      rfl rfl rfl (by decide) (by decide),
   (pto_year_attribution [] 1 10 20 noHolidays priorYearReq).2.1 (by decide),
   (pto_year_attribution [] 1 10 20 noHolidays crossYearReq).2.2
      (by decide) (by decide)⟩

/-- Upserting one record preserves key uniqueness of the table. -/
theorem uniqueKeys_upsert (tbl : List PublicHoliday) (h : NewPublicHoliday)
    (now : Nat) (hu : UniqueKeys tbl) : UniqueKeys (upsertHoliday tbl h now) := by
  unfold upsertHoliday
  split
  case isTrue hany =>
    unfold UniqueKeys at hu ⊢
    rw [List.map_map]
    have hcomp : (holidayKey ∘ fun row : PublicHoliday =>
        if row.country == h.country && row.date == h.date then
          { row with name := h.name, localName := h.localName,
                     htype := h.htype, updatedAt := now }
        else row) = holidayKey := by
      funext row
      simp only [Function.comp_apply]
      by_cases hc : (row.country == h.country && row.date == h.date) = true
      · rw [if_pos hc]
        rfl
      · rw [if_neg hc]
    rw [hcomp]
    exact hu
  case isFalse hany =>
    unfold UniqueKeys at hu ⊢
    rw [List.map_append, List.nodup_append]
    refine ⟨hu, by simp, ?_⟩
    intro a ha hb
    simp only [List.map_cons, List.map_nil, List.mem_singleton] at hb
    obtain ⟨row, hrow, hkey⟩ := List.mem_map.mp ha
    apply hany
    rw [List.any_eq_true]
    refine ⟨row, hrow, ?_⟩
    rw [hb] at hkey
    unfold holidayKey at hkey
    have h1 : row.country = h.country := congrArg Prod.fst hkey
    have h2 : row.date = h.date := congrArg Prod.snd hkey
    simp [h1, h2]

/-- Ingesting any batch of records preserves key uniqueness. -/
theorem uniqueKeys_store (tbl : List PublicHoliday) (recs : List NagerHoliday)
    (now : Nat) (hu : UniqueKeys tbl) : UniqueKeys (storeHolidays tbl recs now) := by
  unfold storeHolidays
  generalize recs.map convertNagerToDbFormat = hs
  induction hs generalizing tbl with
  | nil => exact hu
  | cons a l ih => exact ih _ (uniqueKeys_upsert tbl a now hu)

/-- After an upsert, the table contains a row with the upserted key. -/
theorem upsert_key_mem (tbl : List PublicHoliday) (h : NewPublicHoliday)
    (now : Nat) :
    (upsertHoliday tbl h now).any
      (fun row => row.country == h.country && row.date == h.date) = true := by
  unfold upsertHoliday
  split
  case isTrue hany =>
    rw [List.any_eq_true] at hany ⊢
    obtain ⟨row, hrow, hpred⟩ := hany
    refine ⟨_, List.mem_map_of_mem _ hrow, ?_⟩
    rw [if_pos hpred]
    exact hpred
  case isFalse hany =>
    rw [List.any_append]
    simp

/-- After an upsert, every row carrying the upserted key holds the record's
business fields and the fresh timestamp. -/
theorem upsert_fields (tbl : List PublicHoliday) (h : NewPublicHoliday)
    (now : Nat) :
    ∀ row ∈ upsertHoliday tbl h now,
      (row.country == h.country && row.date == h.date) = true →
      row.name = h.name ∧ row.localName = h.localName ∧ row.htype = h.htype ∧
      row.updatedAt = now := by
  unfold upsertHoliday
  split
  case isTrue hany =>
    intro row hrow hkey
    obtain ⟨x, hx, hfx⟩ := List.mem_map.mp hrow
    by_cases hc : (x.country == h.country && x.date == h.date) = true
    · rw [if_pos hc] at hfx
      rw [← hfx]
      exact ⟨rfl, rfl, rfl, rfl⟩
    · rw [if_neg hc] at hfx
      rw [← hfx] at hkey
      exact absurd hkey hc
  case isFalse hany =>
    intro row hrow hkey
    rcases List.mem_append.mp hrow with hmem | hmem
    · exfalso
      apply hany
      rw [List.any_eq_true]
      exact ⟨row, hmem, hkey⟩
    · rw [List.mem_singleton.mp hmem]
      exact ⟨rfl, rfl, rfl, rfl⟩

/-- Re-upserting a record whose key is already present only rewrites the
keyed rows, and rewriting with the same business fields a second time
changes nothing but `updatedAt`. -/
theorem upsert_reingest (tbl : List PublicHoliday) (h : NewPublicHoliday)
    (n1 n2 : Nat) :
    upsertHoliday (upsertHoliday tbl h n1) h n2 =
      (upsertHoliday tbl h n1).map (fun row =>
        if row.country == h.country && row.date == h.date then
          { row with updatedAt := n2 }
        else row) := by
  have hmem := upsert_key_mem tbl h n1
  have hfields := upsert_fields tbl h n1
  conv_lhs => rw [upsertHoliday]
  rw [if_pos hmem]
  apply List.map_congr_left
  intro row hrow
  by_cases hc : (row.country == h.country && row.date == h.date) = true
  · rw [if_pos hc, if_pos hc]
    obtain ⟨hn, hl, ht, -⟩ := hfields row hrow hc
    rw [← hn, ← hl, ← ht]
  · rw [if_neg hc, if_neg hc]

/-- C9: holiday ingestion upserts keyed by `(country, date)`: starting from
the empty table, any sequence of ingests leaves at most one row per key; and
re-ingesting an identical record a second time creates no duplicate (the
result is a map over the existing table, so the length is unchanged), leaves
the business fields `name`/`localName`/`type` unchanged, and still refreshes
`updatedAt` on the keyed row. -/
theorem holiday_ingest_spec :
    (∀ batches : List (List NagerHoliday × Nat),
      UniqueKeys (batches.foldl (fun t b => storeHolidays t b.1 b.2) [])) ∧
    (∀ (tbl : List PublicHoliday) (rec : NagerHoliday) (n1 n2 : Nat),
      storeHolidays (storeHolidays tbl [rec] n1) [rec] n2 =
        (storeHolidays tbl [rec] n1).map (fun row =>
          if row.country == rec.countryCode && row.date == rec.date then
            { row with updatedAt := n2 }
          else row) ∧
      (storeHolidays (storeHolidays tbl [rec] n1) [rec] n2).length =
        (storeHolidays tbl [rec] n1).length ∧
      ∀ row ∈ storeHolidays (storeHolidays tbl [rec] n1) [rec] n2,
        (row.country == rec.countryCode && row.date == rec.date) = true →
        row.name = rec.name ∧ row.localName = rec.localName ∧
        row.htype = rec.htype ∧ row.updatedAt = n2) := by
  constructor
  · intro batches
    have hgen : ∀ tbl, UniqueKeys tbl →
        UniqueKeys (batches.foldl (fun t b => storeHolidays t b.1 b.2) tbl) := by
      induction batches with
      | nil => intro tbl h; exact h
      | cons b l ih =>
        intro tbl h
        exact ih _ (uniqueKeys_store tbl b.1 b.2 h)
    exact hgen [] (by simp [UniqueKeys])
  · intro tbl rec n1 n2
    have hsingle : ∀ (t : List PublicHoliday) (n : Nat),
        storeHolidays t [rec] n = upsertHoliday t (convertNagerToDbFormat rec) n :=
      fun t n => rfl
    have hmain : storeHolidays (storeHolidays tbl [rec] n1) [rec] n2 =
        (storeHolidays tbl [rec] n1).map (fun row =>
          if row.country == rec.countryCode && row.date == rec.date then
            { row with updatedAt := n2 }
          else row) := by
      rw [hsingle, hsingle]
      exact upsert_reingest tbl (convertNagerToDbFormat rec) n1 n2
    refine ⟨hmain, by rw [hmain, List.length_map], ?_⟩
    intro row hrow hkey
    exact upsert_fields (storeHolidays tbl [rec] n1) (convertNagerToDbFormat rec) n2 row
      (by rw [hsingle] at hrow; exact hrow) hkey
/-- Witness for C9: ingesting one Portuguese Christmas record twice yields a
single row whose second ingest only refreshes `updatedAt`, and whose business
fields match the record. -/
theorem holiday_ingest_spec_witness :
    (storeHolidays (storeHolidays [] [exNager] 1) [exNager] 2 =
      (storeHolidays [] [exNager] 1).map (fun row =>
        if row.country == exNager.countryCode && row.date == exNager.date then
          { row with updatedAt := 2 }
        else row)) ∧
    (storeHolidays (storeHolidays [] [exNager] 1) [exNager] 2).length =
      (storeHolidays [] [exNager] 1).length ∧
    exStoredRow.name = exNager.name ∧
    exStoredRow.localName = exNager.localName ∧
    exStoredRow.htype = exNager.htype ∧
    exStoredRow.updatedAt = 2 := by
  have h := holiday_ingest_spec.2 [] exNager 1 2
  have hmem : exStoredRow ∈ storeHolidays (storeHolidays [] [exNager] 1) [exNager] 2 := by
    have hlist : storeHolidays (storeHolidays [] [exNager] 1) [exNager] 2 =
        [exStoredRow] := rfl
    rw [hlist]
    exact List.mem_singleton.mpr rfl
  have hrow := h.2.2 exStoredRow hmem rfl
  exact ⟨h.1, h.2.1, hrow.1, hrow.2.1, hrow.2.2.1, hrow.2.2.2⟩

end HolidayTracker
